import Mathlib

/-!
Verification development for the vision-lerobot-teleop session recorder and
timed replay engine (scripts/http_hand_tracking_server.py and
scripts/http_hand_tracking_replay.py).

Modelling conventions:

* JSON values are modelled by the inductive `Json`; Python truthiness
  (`if not data:`, `if e.get('data'):`) is `Json.truthy`.
* Wall-clock instants (`time.time()`) are rationals supplied explicitly to
  each operation.  Log file names are produced by
  `datetime.now().strftime("%Y%m%d_%H%M%S")` (second resolution), so they are
  modelled as an abstract `Nat` supplied per call; two calls within the same
  second receive the same name.
* The line codec (`json.dumps` / `json.loads`) is a faithful bijection on the
  records the recorder writes, so a log file is modelled as the `List Json`
  of its records, and a file on disk as an entry of an association list from
  name to content.  A raw line on the replay side is `Option Json`: `some r`
  for a line that decodes to `r`, `none` for a malformed line
  (`json.JSONDecodeError`).
* Python exceptions (`ValueError: I/O operation on closed file`,
  `ZeroDivisionError`) are modelled with `Except`.
-/

/-- Json values as produced by `json.loads`, restricted to what the two
scripts exchange. -/
inductive Json where
  | null
  | bool (b : Bool)
  | num (q : ℚ)
  | str (s : String)
  | arr (elements : List Json)
  | obj (fields : List (String × Json))

/-- Python truthiness of a JSON value (`bool(x)` for the result of
`json.loads`): `None`, `False`, `0`, `""`, `[]`, `{}` are falsy. -/
def Json.truthy : Json → Bool
  | .null => false
  | .bool b => b
  | .num q => if q = 0 then false else true
  | .str s => if s = "" then false else true
  | .arr elements => !elements.isEmpty
  | .obj fields => !fields.isEmpty

/-- First-match lookup in the field list of a JSON object (Python dicts have
unique keys, so first-match agrees with `dict.get`). -/
def lookupField : List (String × Json) → String → Option Json
  | [], _ => none
  | (k, v) :: rest, key => if k = key then some v else lookupField rest key

/-- Models `e.get(key)` on a decoded record `e` (a Python dict): `some v`
when the key is present, `none` (Python `None`) otherwise.  The scripts only
call `.get` on dict records; on a non-dict value the model returns `none`. -/
def Json.get (j : Json) (key : String) : Option Json :=
  match j with
  | .obj fields => lookupField fields key
  | _ => none

/-- Truthiness of an optional value: `e.get(key)` yields `None` (falsy) when
the key is absent. -/
def truthyOpt : Option Json → Bool
  | some v => v.truthy
  | none => false

/-- The metadata record written by `start_new_log` (server lines 56-62):
`{"type": "metadata", "timestamp": t, "datetime": ..., "version": "1.0"}`.
The ISO `datetime` string is diagnostics only and is modelled by a constant
string. -/
def metadataJson (now : ℚ) : Json :=
  .obj [("type", .str "metadata"), ("timestamp", .num now),
        ("datetime", .str "iso8601"), ("version", .str "1.0")]

/-- The per-message record written by `log_data` (server lines 73-77):
`{"server_timestamp": t, "message_index": i, "data": d}`. -/
def entryJson (now : ℚ) (index : ℕ) (data : Json) : Json :=
  .obj [("server_timestamp", .num now), ("message_index", .num (index : ℚ)),
        ("data", data)]

/-- The closing record written by `shutdown` (server lines 109-115). -/
def sessionEndJson (now : ℚ) (total : ℕ) (dur : ℚ) : Json :=
  .obj [("type", .str "session_end"), ("timestamp", .num now),
        ("datetime", .str "iso8601"), ("total_messages", .num (total : ℚ)),
        ("duration", .num dur)]

/-- State of `self.log_handle`: `None` (falsy), an open file object, or a
closed file object.  A closed Python file object is still truthy, which is
why `shutdown` distinguishes the last two cases. -/
inductive Handle where
  | noHandle
  | openedFile (name : ℕ)
  | closedFile (name : ℕ)
deriving DecidableEq

/-- Python truthiness of `self.log_handle`: only `None` is falsy. -/
def Handle.truthy : Handle → Bool
  | .noHandle => false
  | .openedFile _ => true
  | .closedFile _ => true

/-- The filesystem (association of file name to flushed content) together
with the mutable fields of `HandTrackingServer`: `log_handle`,
`message_count`, `start_time`. -/
structure ServerState where
  files : List (ℕ × List Json)
  handle : Handle
  messageCount : ℕ
  startTime : Option ℚ

/-- Overwrite-or-create a file (`open(path, 'w')` truncates). -/
def setFile : List (ℕ × List Json) → ℕ → List Json → List (ℕ × List Json)
  | [], name, content => [(name, content)]
  | (n, c) :: rest, name, content =>
      if n = name then (name, content) :: rest
      else (n, c) :: setFile rest name content

/-- Content of a file, if it exists. -/
def getFile : List (ℕ × List Json) → ℕ → Option (List Json)
  | [], _ => none
  | (n, c) :: rest, name => if n = name then some c else getFile rest name

/-- Append one record to a file (write of one encoded line plus flush). -/
def appendFile (fs : List (ℕ × List Json)) (name : ℕ) (record : Json) :
    List (ℕ × List Json) :=
  setFile fs name (((getFile fs name).getD []) ++ [record])

namespace HandTrackingServer

/-- `HandTrackingServer.__init__` (server lines 28-42): no log file, no
handle, message count 0, no start time; the log directory starts empty. -/
def initState : ServerState :=
  { files := [], handle := .noHandle, messageCount := 0, startTime := none }

/-- The expression `time.time() - self.start_time if self.start_time else 0`
of server line 114: Python truthiness makes both `None` and `0.0` yield 0. -/
def durationOf (now : ℚ) : Option ℚ → ℚ
  | some t => if t = 0 then 0 else now - t
  | none => 0

/-- `start_new_log` (server lines 44-65): close any current handle, open (and
truncate) the file named by the current second, reset the counter and the
start time, write the metadata record and flush. -/
def start_new_log (name : ℕ) (now : ℚ) (s : ServerState) : ServerState :=
  { files := setFile s.files name [metadataJson now]
    handle := .openedFile name
    messageCount := 0
    startTime := some now }

/-- `log_data` (server lines 67-81): if the handle is falsy (`None`), start a
new log first; then append the entry record (carrying the pre-increment
counter) and increment the counter.  Writing through a closed handle — which
is truthy, so it does not trigger `start_new_log` — raises `ValueError`. -/
def log_data (now : ℚ) (newName : ℕ) (data : Json) (s : ServerState) :
    Except String ServerState :=
  let s1 := if s.handle.truthy then s else start_new_log newName now s
  match s1.handle with
  | .openedFile f =>
      .ok { s1 with
              files := appendFile s1.files f (entryJson now s1.messageCount data)
              messageCount := s1.messageCount + 1 }
  | .closedFile _ => .error "I/O operation on closed file"
  | .noHandle => .error "I/O operation on closed file"

/-- `shutdown` (server lines 102-118): when the handle is truthy, write the
`session_end` record and close the handle.  The handle field is never reset
to `None`, so on a second call the handle is a truthy closed file object and
the write raises `ValueError`.  When the handle is `None` nothing happens. -/
def shutdown (now : ℚ) (s : ServerState) : Except String ServerState :=
  match s.handle with
  | .noHandle => .ok s
  | .openedFile f =>
      .ok { s with
              files := appendFile s.files f
                (sessionEndJson now s.messageCount (durationOf now s.startTime))
              handle := .closedFile f }
  | .closedFile _ => .error "I/O operation on closed file"

/-- Response of the `POST /control` route (server lines 134-164). -/
inductive CtrlResp where
  | okResp (message_index : ℕ) (timestamp : ℚ)
  | badRequest (error : String)
  | serverError (error : String)
deriving DecidableEq

/-- The `control` handler (server lines 134-164): reject a falsy body with a
400, otherwise call `log_data` and answer with `server.message_count` as read
AFTER the increment performed inside `log_data`; an exception from `log_data`
becomes a 500. -/
def control (now : ℚ) (newName : ℕ) (body : Json) (s : ServerState) :
    CtrlResp × ServerState :=
  if body.truthy = false then (.badRequest "No JSON data provided", s)
  else
    match log_data now newName body s with
    | .ok s1 => (.okResp s1.messageCount now, s1)
    | .error e => (.serverError e, s)

/-- The `reset` handler (server lines 176-186): record the previous count,
start a new log, report the previous count and the new file name. -/
def reset (name : ℕ) (now : ℚ) (s : ServerState) : (ℕ × ℕ) × ServerState :=
  ((s.messageCount, name), start_new_log name now s)

/-- A sequence of `record` calls: fold `log_data` over a list of
(timestamp, payload) pairs, stopping at the first raised exception.  The
`newName` argument of each call is irrelevant while a session is open. -/
def runRecords : ServerState → List (ℚ × Json) → Except String ServerState
  | s, [] => .ok s
  | s, (t, d) :: rest =>
      match log_data t 0 d s with
      | .ok s1 => runRecords s1 rest
      | .error e => .error e

/-- The entry records produced by consecutive `log_data` calls starting at
counter value `k`. -/
def entriesFrom (k : ℕ) : List (ℚ × Json) → List Json
  | [] => []
  | (t, d) :: rest => entryJson t k d :: entriesFrom (k + 1) rest

end HandTrackingServer

namespace HandTrackingReplay

/-- `load_log_file` (replay lines 28-43): decode each line, skip malformed
lines (a warning is logged), keep decoded records in file order.  A line is
`some r` when it decodes to `r` and `none` when `json.loads` raises. -/
def load_log_file (lines : List (Option Json)) : List Json :=
  lines.filterMap id

/-- The predicate of replay line 62: `e.get('data')` is truthy. -/
def hasData (e : Json) : Bool := truthyOpt (e.get "data")

/-- The predicate of replay line 63: `e.get('type') in ['metadata',
'session_end']`. -/
def isMetaType (e : Json) : Bool :=
  match e.get "type" with
  | some (.str t) => t = "metadata" || t = "session_end"
  | _ => false

/-- Replay line 62: the entries that are dispatched, in log order. -/
def dataEntries (entries : List Json) : List Json := entries.filter hasData

/-- Replay line 63: the metadata records, displayed but never dispatched. -/
def metadataEntries (entries : List Json) : List Json :=
  entries.filter isMetaType

/-- Reading `entry['server_timestamp']` as a number; `none` models the
`KeyError`/`TypeError` the source would raise on an entry without a numeric
timestamp. -/
def getTs (e : Json) : Option ℚ :=
  match e.get "server_timestamp" with
  | some (.num q) => some q
  | _ => none

/-- Errors that abort a replay pass: `ZeroDivisionError` from
`original_delay / speed` with `speed = 0`, or a data entry without a numeric
`server_timestamp`. -/
inductive ReplayErr where
  | zeroDivision
  | badEntry
deriving DecidableEq

/-- One iteration of the dispatch loop (replay lines 89-116), observed:
the entry, the elapsed time (since the iteration anchor `T0`) when the
iteration began, the argument passed to `time.sleep` if it was called, the
elapsed time at which the dispatch started, and the dispatch outcome. -/
structure ReplayStep where
  entry : Json
  elapsedIn : ℚ
  sleepArg : Option ℚ
  dispatchAt : ℚ
  sendOk : Bool

/-- The dispatch loop of `replay_log` (replay lines 89-116) over the filtered
data entries.  `sink n` gives the wall-clock duration consumed by dispatch
number `n` (the POST plus loop overhead) and its success flag; the source
uses the response only for logging, never for timing.  `elapsed` is
`time.time() - start_time` at the head of the iteration.  For each entry:
`original_delay = ts - firstTs` and `scaled_delay = original_delay / speed`
(raising `ZeroDivisionError` when `speed = 0`); the loop sleeps
`scaled_delay - elapsed` only when `scaled_delay > elapsed`, then dispatches
and proceeds with the clock advanced by the dispatch duration. -/
def replayPass (speed firstTs : ℚ) (sink : ℕ → ℚ × Bool) :
    List Json → ℕ → ℚ → Except ReplayErr (List ReplayStep)
  | [], _, _ => .ok []
  | e :: rest, i, elapsed =>
      match getTs e with
      | none => .error .badEntry
      | some ts =>
          if speed = 0 then .error .zeroDivision
          else
            let scaled := (ts - firstTs) / speed
            let wait := if scaled > elapsed then some (scaled - elapsed) else none
            let dAt := max scaled elapsed
            match replayPass speed firstTs sink rest (i + 1) (dAt + (sink i).1) with
            | .ok steps => .ok (⟨e, elapsed, wait, dAt, (sink i).2⟩ :: steps)
            | .error err => .error err

/-- One pass of `replay_log` (replay lines 57-119, `loop = False`): load the
lines, filter the data entries, return immediately with a warning when there
are none, otherwise anchor on the first entry's timestamp and run the
dispatch loop.  `elapsed0` is the (tiny, nonnegative) elapsed time already
consumed when the first iteration reads the clock. -/
def replay_log (lines : List (Option Json)) (speed : ℚ) (sink : ℕ → ℚ × Bool)
    (elapsed0 : ℚ) : Except ReplayErr (List ReplayStep) :=
  match dataEntries (load_log_file lines) with
  | [] => .ok []
  | e0 :: rest =>
      match getTs e0 with
      | none => .error .badEntry
      | some firstTs => replayPass speed firstTs sink (e0 :: rest) 0 elapsed0

/-- The timing-relevant projection of a step: everything except the dispatch
outcome. -/
def stepTiming (st : ReplayStep) : Json × ℚ × Option ℚ × ℚ :=
  (st.entry, st.elapsedIn, st.sleepArg, st.dispatchAt)

/-- Number of dispatches performed by a replay result. -/
def dispatchCount : Except ReplayErr (List ReplayStep) → ℕ
  | .ok steps => steps.length
  | .error _ => 0

end HandTrackingReplay

section HelperLemmas

open HandTrackingServer HandTrackingReplay

/-- The metadata record carries no `data` field, so the replay filter of
line 62 rejects it. -/
theorem hasData_metadataJson (t : ℚ) : hasData (metadataJson t) = false := rfl

/-- An entry record carries its payload under `data`, so the replay filter
keeps it exactly when the payload is truthy. -/
theorem hasData_entryJson (t : ℚ) (k : ℕ) (d : Json) :
    hasData (entryJson t k d) = d.truthy := rfl

/-- The session-end record carries no `data` field. -/
theorem hasData_sessionEndJson (t : ℚ) (n : ℕ) (dur : ℚ) :
    hasData (sessionEndJson t n dur) = false := rfl

/-- An entry record has no `type` discriminator. -/
theorem isMetaType_entryJson (t : ℚ) (k : ℕ) (d : Json) :
    isMetaType (entryJson t k d) = false := rfl

/-- The timestamp of an entry record. -/
theorem getTs_entryJson (t : ℚ) (k : ℕ) (d : Json) :
    getTs (entryJson t k d) = some t := rfl

/-- The index field of an entry record. -/
theorem get_index_entryJson (t : ℚ) (k : ℕ) (d : Json) :
    (entryJson t k d).get "message_index" = some (.num (k : ℚ)) := rfl

/-- The payload field of an entry record. -/
theorem get_data_entryJson (t : ℚ) (k : ℕ) (d : Json) :
    (entryJson t k d).get "data" = some d := rfl

theorem getFile_setFile_self (fs : List (ℕ × List Json)) (name : ℕ)
    (content : List Json) : getFile (setFile fs name content) name = some content := by
  induction fs with
  | nil => simp [setFile, getFile]
  | cons hd rest ih =>
      obtain ⟨n, c⟩ := hd
      by_cases h : n = name
      · simp [setFile, getFile, h]
      · simp [setFile, getFile, h, ih]

theorem getFile_setFile_other (fs : List (ℕ × List Json)) (name m : ℕ)
    (content : List Json) (h : m ≠ name) :
    getFile (setFile fs name content) m = getFile fs m := by
  induction fs with
  | nil => simp [setFile, getFile, Ne.symm h]
  | cons hd rest ih =>
      obtain ⟨n, c⟩ := hd
      by_cases hn : n = name
      · subst hn
        simp [setFile, getFile, Ne.symm h]
      · by_cases hm : n = m
        · subst hm
          simp [setFile, getFile, hn]
        · simp [setFile, getFile, hn, hm, ih]

theorem getFile_appendFile_self (fs : List (ℕ × List Json)) (name : ℕ)
    (c : List Json) (record : Json) (h : getFile fs name = some c) :
    getFile (appendFile fs name record) name = some (c ++ [record]) := by
  simp [appendFile, h, getFile_setFile_self]

theorem getFile_appendFile_other (fs : List (ℕ × List Json)) (name m : ℕ)
    (record : Json) (h : m ≠ name) :
    getFile (appendFile fs name record) m = getFile fs m :=
  getFile_setFile_other _ _ _ _ h

/-- A `log_data` call on a state with an open handle appends one entry record
(carrying the pre-increment counter) and increments the counter; nothing else
changes. -/
theorem log_data_open (now : ℚ) (newName : ℕ) (d : Json) (s : ServerState)
    (f : ℕ) (h : s.handle = .openedFile f) :
    log_data now newName d s =
      .ok { s with
              files := appendFile s.files f (entryJson now s.messageCount d)
              messageCount := s.messageCount + 1 } := by
  simp [log_data, h, Handle.truthy]

/-- Shape of a full run of `record` calls against an open session: every call
succeeds, the counter advances by the number of calls, the open file gains
exactly the corresponding entry records in order, and every other file is
untouched. -/
theorem runRecords_spec (xs : List (ℚ × Json)) :
    ∀ (s : ServerState) (f : ℕ) (content : List Json),
      s.handle = .openedFile f → getFile s.files f = some content →
      ∃ s1, runRecords s xs = .ok s1 ∧
        s1.handle = .openedFile f ∧
        s1.messageCount = s.messageCount + xs.length ∧
        s1.startTime = s.startTime ∧
        getFile s1.files f = some (content ++ entriesFrom s.messageCount xs) ∧
        ∀ g, g ≠ f → getFile s1.files g = getFile s.files g := by
  induction xs with
  | nil =>
      intro s f content hh hc
      exact ⟨s, rfl, hh, by simp, rfl, by simpa [entriesFrom] using hc,
             fun g _ => rfl⟩
  | cons p rest ih =>
      intro s f content hh hc
      obtain ⟨t, d⟩ := p
      have hstep := log_data_open t 0 d s f hh
      set s1 : ServerState :=
        { s with
            files := appendFile s.files f (entryJson t s.messageCount d)
            messageCount := s.messageCount + 1 } with hs1
      have hh1 : s1.handle = .openedFile f := hh
      have hc1 : getFile s1.files f = some (content ++ [entryJson t s.messageCount d]) :=
        getFile_appendFile_self _ _ _ _ hc
      obtain ⟨s2, hrun, hhand, hcount, hstart, hfile, hothers⟩ :=
        ih s1 f (content ++ [entryJson t s.messageCount d]) hh1 hc1
      refine ⟨s2, ?_, hhand, ?_, hstart, ?_, ?_⟩
      · simp [runRecords, hstep, hrun]
      · simp [hcount, hs1]
        omega
      · rw [hfile]
        simp [hs1, entriesFrom]
      · intro g hg
        rw [hothers g hg]
        exact getFile_appendFile_other _ _ _ _ hg

/-- Filtering the recorder-written file: the metadata record is dropped and
every entry with a truthy payload is kept, in order. -/
theorem dataEntries_entriesFrom (xs : List (ℚ × Json)) :
    ∀ k, (∀ p ∈ xs, Json.truthy p.2 = true) →
      dataEntries (entriesFrom k xs) = entriesFrom k xs := by
  induction xs with
  | nil => intro k _; rfl
  | cons p rest ih =>
      intro k hp
      obtain ⟨t, d⟩ := p
      have hd : Json.truthy d = true := hp (t, d) (by simp)
      have hrest := ih (k + 1) (fun q hq => hp q (by simp [hq]))
      simp [entriesFrom, dataEntries, List.filter, hasData_entryJson, hd] at hrest ⊢
      exact hrest

/-- The recorder-written log starts with a metadata record that the replay
filter drops. -/
theorem dataEntries_recorded (t0 : ℚ) (xs : List (ℚ × Json))
    (hp : ∀ p ∈ xs, Json.truthy p.2 = true) :
    dataEntries (metadataJson t0 :: entriesFrom 0 xs) = entriesFrom 0 xs := by
  simp [dataEntries, List.filter, hasData_metadataJson]
  simpa [dataEntries] using dataEntries_entriesFrom xs 0 hp

/-- The `message_index` fields of a recorder-written run count up from the
initial counter value. -/
theorem entriesFrom_indices (xs : List (ℚ × Json)) :
    ∀ k, (entriesFrom k xs).map (fun e => e.get "message_index") =
      (List.range' k xs.length).map (fun i => some (Json.num (i : ℚ))) := by
  induction xs with
  | nil => intro k; rfl
  | cons p rest ih =>
      intro k
      obtain ⟨t, d⟩ := p
      simp [entriesFrom, List.range', get_index_entryJson, ih (k + 1)]

/-- The `data` fields of a recorder-written run are the original payloads. -/
theorem entriesFrom_payloads (xs : List (ℚ × Json)) :
    ∀ k, (entriesFrom k xs).map (fun e => e.get "data") =
      xs.map (fun p => some p.2) := by
  induction xs with
  | nil => intro k; rfl
  | cons p rest ih =>
      intro k
      obtain ⟨t, d⟩ := p
      simp [entriesFrom, get_data_entryJson, ih (k + 1)]

end HelperLemmas

section ReplayLemmas

open HandTrackingReplay

/-- Deleting the malformed lines of a log does not change what the loader
returns: `load_log_file` already skips them. -/
theorem load_log_file_filter (lines : List (Option Json)) :
    load_log_file (lines.filter Option.isSome) = load_log_file lines := by
  induction lines with
  | nil => rfl
  | cons hd tl ih =>
      cases hd with
      | none => simpa [load_log_file, List.filter] using ih
      | some v => simpa [load_log_file, List.filter] using ih

/-- Loading a file in which every line decodes returns its records. -/
theorem load_log_file_map_some (records : List Json) :
    load_log_file (records.map some) = records := by
  induction records with
  | nil => rfl
  | cons hd tl ih => simp [load_log_file]

/-- With a nonzero speed and a numeric timestamp on every entry, the dispatch
loop completes and dispatches exactly the given entries in order. -/
theorem replayPass_ok (speed firstTs : ℚ) (sink : ℕ → ℚ × Bool)
    (hs : ¬speed = 0) (es : List Json) :
    ∀ (i : ℕ) (elapsed : ℚ), (∀ e ∈ es, (getTs e).isSome) →
      ∃ steps, replayPass speed firstTs sink es i elapsed = .ok steps ∧
        steps.map ReplayStep.entry = es := by
  induction es with
  | nil => exact fun i elapsed _ => ⟨[], rfl, rfl⟩
  | cons e rest ih =>
      intro i elapsed hts
      have he : (getTs e).isSome := hts e (by simp)
      obtain ⟨ts, hts0⟩ := Option.isSome_iff_exists.mp he
      obtain ⟨steps, hrun, hmap⟩ :=
        ih (i + 1)
          (max ((ts - firstTs) / speed) elapsed + (sink i).1)
          (fun x hx => hts x (by simp [hx]))
      refine ⟨⟨e, elapsed,
          if (ts - firstTs) / speed > elapsed then
            some ((ts - firstTs) / speed - elapsed) else none,
          max ((ts - firstTs) / speed) elapsed, (sink i).2⟩ :: steps, ?_, ?_⟩
      · rw [replayPass, hts0]
        simp [hs, hrun]
      · simp [hmap]

/-- Every step produced by the dispatch loop carries the wait of replay lines
91-97: the scaled anchor delay of its own entry compared with the elapsed
time at the head of its iteration, and the dispatch starts at the later of
the two. -/
theorem replayPass_steps_spec (speed firstTs : ℚ) (sink : ℕ → ℚ × Bool)
    (es : List Json) :
    ∀ (i : ℕ) (elapsed : ℚ) steps,
      replayPass speed firstTs sink es i elapsed = .ok steps →
      ∀ st ∈ steps, ∃ q, getTs st.entry = some q ∧
        st.sleepArg = (if (q - firstTs) / speed > st.elapsedIn then
          some ((q - firstTs) / speed - st.elapsedIn) else none) ∧
        st.dispatchAt = max ((q - firstTs) / speed) st.elapsedIn := by
  induction es with
  | nil =>
      intro i elapsed steps hrun st hst
      simp [replayPass] at hrun
      subst hrun
      simp at hst
  | cons e rest ih =>
      intro i elapsed steps hrun st hst
      rw [replayPass] at hrun
      cases hq : getTs e with
      | none => simp [hq] at hrun
      | some ts =>
          simp only [hq] at hrun
          by_cases hs : speed = 0
          · simp [hs] at hrun
          · simp only [hs, if_false, if_neg hs] at hrun
            cases hrec : replayPass speed firstTs sink rest (i + 1)
                (max ((ts - firstTs) / speed) elapsed + (sink i).1) with
            | error err => simp [hrec] at hrun
            | ok tailSteps =>
                simp [hrec] at hrun
                subst hrun
                rcases List.mem_cons.mp hst with hhd | htl
                · subst hhd
                  exact ⟨ts, hq, rfl, rfl⟩
                · exact ih (i + 1) _ tailSteps hrec st htl

/-- The elapsed clock at the head of every iteration is nonnegative, provided
the pass starts with a nonnegative clock and dispatches consume nonnegative
time. -/
theorem replayPass_elapsed_nonneg (speed firstTs : ℚ) (sink : ℕ → ℚ × Bool)
    (hd : ∀ n, 0 ≤ (sink n).1) (es : List Json) :
    ∀ (i : ℕ) (elapsed : ℚ) steps, 0 ≤ elapsed →
      replayPass speed firstTs sink es i elapsed = .ok steps →
      ∀ st ∈ steps, 0 ≤ st.elapsedIn := by
  induction es with
  | nil =>
      intro i elapsed steps _ hrun st hst
      simp [replayPass] at hrun
      subst hrun
      simp at hst
  | cons e rest ih =>
      intro i elapsed steps hE hrun st hst
      rw [replayPass] at hrun
      cases hq : getTs e with
      | none => simp [hq] at hrun
      | some ts =>
          simp only [hq] at hrun
          by_cases hs : speed = 0
          · simp [hs] at hrun
          · simp only [hs, if_false, if_neg hs] at hrun
            cases hrec : replayPass speed firstTs sink rest (i + 1)
                (max ((ts - firstTs) / speed) elapsed + (sink i).1) with
            | error err => simp [hrec] at hrun
            | ok tailSteps =>
                simp [hrec] at hrun
                subst hrun
                rcases List.mem_cons.mp hst with hhd | htl
                · subst hhd
                  exact hE
                · refine ih (i + 1) _ tailSteps ?_ hrec st htl
                  have h1 : (0 : ℚ) ≤ max ((ts - firstTs) / speed) elapsed :=
                    le_trans hE (le_max_right _ _)
                  have h2 := hd i
                  linarith

/-- The timing of a pass depends on the sink only through the dispatch
durations: two sinks with the same durations (and arbitrary success flags)
produce the same entries, waits and dispatch times, and fail identically. -/
theorem replayPass_timing_indep (speed firstTs : ℚ) (sink1 sink2 : ℕ → ℚ × Bool)
    (hd : ∀ n, (sink1 n).1 = (sink2 n).1) (es : List Json) :
    ∀ (i : ℕ) (elapsed : ℚ),
      (replayPass speed firstTs sink1 es i elapsed).map (List.map stepTiming) =
      (replayPass speed firstTs sink2 es i elapsed).map (List.map stepTiming) := by
  induction es with
  | nil => intro i elapsed; rfl
  | cons e rest ih =>
      intro i elapsed
      rw [replayPass, replayPass]
      cases hq : getTs e with
      | none => rfl
      | some ts =>
          by_cases hs : speed = 0
          · simp [hs]
          · simp only [hs, if_false, if_neg hs]
            rw [hd i]
            have hrec := ih (i + 1) (max ((ts - firstTs) / speed) elapsed + (sink2 i).1)
            cases h1 : replayPass speed firstTs sink1 rest (i + 1)
                (max ((ts - firstTs) / speed) elapsed + (sink2 i).1) with
            | error err =>
                rw [h1] at hrec
                cases h2 : replayPass speed firstTs sink2 rest (i + 1)
                    (max ((ts - firstTs) / speed) elapsed + (sink2 i).1) with
                | error err2 =>
                    rw [h2] at hrec
                    simp [Except.map] at hrec
                    simp [hrec]
                | ok steps2 =>
                    rw [h2] at hrec
                    simp [Except.map] at hrec
            | ok steps1 =>
                rw [h1] at hrec
                cases h2 : replayPass speed firstTs sink2 rest (i + 1)
                    (max ((ts - firstTs) / speed) elapsed + (sink2 i).1) with
                | error err2 =>
                    rw [h2] at hrec
                    simp [Except.map] at hrec
                | ok steps2 =>
                    rw [h2] at hrec
                    simp [Except.map] at hrec
                    simp [Except.map, stepTiming, hrec]

end ReplayLemmas

section NegativeSpeedLemma

open HandTrackingReplay

/-- With a negative speed every scaled delay of a forward-ordered log is
nonpositive, so the pass never sleeps and still dispatches everything. -/
theorem replayPass_negative_speed (speed firstTs : ℚ) (sink : ℕ → ℚ × Bool)
    (hneg : speed < 0) (hdur : ∀ n, 0 ≤ (sink n).1) (es : List Json) :
    ∀ (i : ℕ) (elapsed : ℚ), 0 ≤ elapsed →
      (∀ e ∈ es, ∃ q, getTs e = some q ∧ firstTs ≤ q) →
      ∃ steps, replayPass speed firstTs sink es i elapsed = .ok steps ∧
        steps.map ReplayStep.entry = es ∧
        ∀ st ∈ steps, st.sleepArg = none := by
  induction es with
  | nil => exact fun i elapsed _ _ => ⟨[], rfl, rfl, by simp⟩
  | cons e rest ih =>
      intro i elapsed hE hts
      obtain ⟨q, hq, hge⟩ := hts e (by simp)
      have hs : ¬speed = 0 := ne_of_lt hneg
      have hscaled : (q - firstTs) / speed ≤ 0 :=
        div_nonpos_iff.mpr (Or.inl ⟨by linarith, hneg.le⟩)
      have hnosleep : ¬((q - firstTs) / speed > elapsed) := by linarith
      have hmax : max ((q - firstTs) / speed) elapsed = elapsed :=
        max_eq_right (by linarith)
      obtain ⟨steps, hrun, hmap, hnone⟩ :=
        ih (i + 1) (max ((q - firstTs) / speed) elapsed + (sink i).1)
          (by have := hdur i; rw [hmax]; linarith)
          (fun x hx => hts x (by simp [hx]))
      refine ⟨⟨e, elapsed, none, max ((q - firstTs) / speed) elapsed,
          (sink i).2⟩ :: steps, ?_, by simp [hmap], ?_⟩
      · rw [replayPass, hq]
        simp only [hs, if_false, if_neg hs, hnosleep]
        simp [hrun, if_neg hnosleep]
      · intro st hst
        rcases List.mem_cons.mp hst with hhd | htl
        · subst hhd; rfl
        · exact hnone st htl

end NegativeSpeedLemma

section UnfoldingHelpers

open HandTrackingServer HandTrackingReplay

/-- Unfolding of a replay pass when the log contains no data entries:
warn and return (replay lines 65-67). -/
theorem replay_log_empty (lines : List (Option Json)) (speed : ℚ)
    (sink : ℕ → ℚ × Bool) (E : ℚ)
    (hdes : dataEntries (load_log_file lines) = []) :
    replay_log lines speed sink E = .ok [] := by
  unfold replay_log
  rw [hdes]

/-- Unfolding of a replay pass on a log with at least one data entry: anchor
on the first entry's timestamp and run the dispatch loop. -/
theorem replay_log_eq (lines : List (Option Json)) (speed : ℚ)
    (sink : ℕ → ℚ × Bool) (E : ℚ) (e0 : Json) (rest : List Json) (q : ℚ)
    (hdes : dataEntries (load_log_file lines) = e0 :: rest)
    (hq : getTs e0 = some q) :
    replay_log lines speed sink E = replayPass speed q sink (e0 :: rest) 0 E := by
  unfold replay_log
  rw [hdes]
  simp [hq]

/-- Every record written by the recorder carries a numeric timestamp. -/
theorem entriesFrom_ts_isSome (xs : List (ℚ × Json)) :
    ∀ k, ∀ e ∈ entriesFrom k xs, (getTs e).isSome := by
  induction xs with
  | nil => intro k e he; simp [entriesFrom] at he
  | cons p rest ih =>
      intro k e he
      obtain ⟨t, d⟩ := p
      rcases List.mem_cons.mp he with h | h
      · subst h; simp [getTs_entryJson]
      · exact ih (k + 1) e h

/-- Unfolding of `shutdown` on an open session. -/
theorem shutdown_open (now : ℚ) (s : ServerState) (f : ℕ)
    (h : s.handle = .openedFile f) :
    shutdown now s = .ok { s with
        files := appendFile s.files f
          (sessionEndJson now s.messageCount (durationOf now s.startTime))
        handle := .closedFile f } := by
  simp [shutdown, h]

/-- Unfolding of `shutdown` on a closed (but non-`None`) handle: the write
raises `ValueError`. -/
theorem shutdown_closed (now : ℚ) (s : ServerState) (f : ℕ)
    (h : s.handle = .closedFile f) :
    shutdown now s = .error "I/O operation on closed file" := by
  simp [shutdown, h]

end UnfoldingHelpers

namespace Claims

open HandTrackingServer HandTrackingReplay

/-- Concrete truthy payload used by the concrete scenarios: `{"x": 1}`. -/
def payloadX : Json := .obj [("x", .num 1)]

/-- C1: at the failing input (fresh server, one `POST /control` with body
`{"x": 1}`), the entry written to the log carries `message_index` 0, yet the
response reports `message_index` 1, because the handler reads
`server.message_count` after `log_data` has already incremented it.  The
spec requires the response to carry the assigned index (0). -/
theorem C1_control_reports_post_increment_index :
    (control 10 7 payloadX initState).1 = .okResp 1 10 ∧
    getFile (control 10 7 payloadX initState).2.files 7 =
      some [metadataJson 10, entryJson 10 0 payloadX] :=
  ⟨rfl, rfl⟩

/-- C2 counterexample: open a session (second 3, time 0) and call `shutdown`
twice (times 5 and 6).  The second call is not a no-op: the handle is a
truthy closed file object, so the `session_end` write raises `ValueError`,
contradicting the claimed idempotence. -/
theorem C2_second_shutdown_raises :
    (shutdown 5 (start_new_log 3 0 initState)).bind (shutdown 6) =
      .error "I/O operation on closed file" :=
  rfl

/-- C2 amended: when a session is open, `shutdown` writes a `SessionEnd`
record carrying `total_messages` and `duration = now - start_time` and closes
the file; but it is not idempotent: the handle field is never cleared, so a
second call finds a truthy closed handle and raises an error instead of being
a no-op. -/
theorem C2_shutdown_amended (s : ServerState) (f : ℕ) (now now2 : ℚ)
    (h : s.handle = .openedFile f) :
    ∃ s1, shutdown now s = .ok s1 ∧
      s1.handle = .closedFile f ∧
      s1.files = appendFile s.files f
        (sessionEndJson now s.messageCount (durationOf now s.startTime)) ∧
      s1.messageCount = s.messageCount ∧
      shutdown now2 s1 = .error "I/O operation on closed file" := by
  refine ⟨_, shutdown_open now s f h, rfl, rfl, rfl, ?_⟩
  exact shutdown_closed now2 _ f rfl

/-- C2 witness: the amended statement evaluated on the session opened in
second 3 at time 0 and shut down at times 5 and 6. -/
theorem C2_shutdown_amended_witness :
    (start_new_log 3 0 initState).handle = .openedFile 3 ∧
    ∃ s1, shutdown 5 (start_new_log 3 0 initState) = .ok s1 ∧
      s1.handle = .closedFile 3 ∧
      s1.files = appendFile (start_new_log 3 0 initState).files 3
        (sessionEndJson 5 (start_new_log 3 0 initState).messageCount
          (durationOf 5 (start_new_log 3 0 initState).startTime)) ∧
      s1.messageCount = (start_new_log 3 0 initState).messageCount ∧
      shutdown 6 s1 = .error "I/O operation on closed file" :=
  ⟨rfl, C2_shutdown_amended (start_new_log 3 0 initState) 3 5 6 rfl⟩

/-- C10: a `POST /control` whose parsed body is falsy (Python `not data`,
e.g. `{}` or `null`) is answered with the 400 error response and the server
state is completely unchanged: nothing is appended, no session starts, the
counter stays put. -/
theorem C10_falsy_body_rejected (now : ℚ) (newName : ℕ) (body : Json)
    (s : ServerState) (h : body.truthy = false) :
    control now newName body s = (.badRequest "No JSON data provided", s) := by
  unfold HandTrackingServer.control
  rw [h]
  rfl

/-- C10 witness: the empty JSON object `{}` against the fresh server. -/
theorem C10_falsy_body_rejected_witness :
    (Json.obj []).truthy = false ∧
    control 0 0 (Json.obj []) initState =
      (.badRequest "No JSON data provided", initState) :=
  ⟨rfl, C10_falsy_body_rejected 0 0 (Json.obj []) initState rfl⟩

end Claims

namespace Claims

open HandTrackingServer HandTrackingReplay

/-- State after starting a session in second 5 at time 0 and recording one
payload at time 1 (the `log_data` call on an open handle cannot fail). -/
def c7mid : ServerState :=
  match log_data 1 99 payloadX (start_new_log 5 0 initState) with
  | .ok s => s
  | .error _ => initState

/-- State after a reset that falls in the same second 5, at time 2. -/
def c7after : ServerState := start_new_log 5 2 c7mid

/-- C7 counterexample: a reset within the same second as the session start
reuses the time-derived file name, and `open(path, 'w')` truncates it; the
prior log then holds only the fresh metadata record (1 record) instead of its
`SessionStart` plus the one entry written before the reset (2 records). -/
theorem C7_same_second_reset_truncates :
    getFile c7after.files 5 = some [metadataJson 2] ∧
    ((getFile c7after.files 5).getD []).length = 1 ∧
    ((getFile c7after.files 5).getD []).length ≠ 2 :=
  ⟨rfl, rfl, by decide⟩

/-- C7 amended: when `start_new_log` is called mid-session and the new
time-derived file name differs from the prior one (the reset falls in a
different second), the prior file keeps exactly its `SessionStart` record
followed by the entries written before the reset, and the new file begins
with a fresh `SessionStart` with the message counter reset to 0. -/
theorem C7_reset_amended (name newName : ℕ) (t0 now : ℚ) (xs : List (ℚ × Json))
    (hne : newName ≠ name) :
    ∃ s1, runRecords (start_new_log name t0 initState) xs = .ok s1 ∧
      getFile (start_new_log newName now s1).files name =
        some (metadataJson t0 :: entriesFrom 0 xs) ∧
      getFile (start_new_log newName now s1).files newName =
        some [metadataJson now] ∧
      (start_new_log newName now s1).messageCount = 0 ∧
      (start_new_log newName now s1).handle = .openedFile newName ∧
      (start_new_log newName now s1).startTime = some now := by
  obtain ⟨s1, hrun, hhand, hcount, hstart, hfile, hothers⟩ :=
    runRecords_spec xs (start_new_log name t0 initState) name [metadataJson t0]
      rfl (by simp [start_new_log, getFile_setFile_self])
  refine ⟨s1, hrun, ?_, ?_, rfl, rfl, rfl⟩
  · show getFile (setFile s1.files newName [metadataJson now]) name =
      some (metadataJson t0 :: entriesFrom 0 xs)
    rw [getFile_setFile_other s1.files newName name [metadataJson now]
      (Ne.symm hne), hfile]
    rfl
  · show getFile (setFile s1.files newName [metadataJson now]) newName =
      some [metadataJson now]
    exact getFile_setFile_self s1.files newName [metadataJson now]

/-- C7 witness: the amended statement on a session started in second 5 at
time 0, one entry recorded at time 1, reset into second 6 at time 2. -/
theorem C7_reset_amended_witness :
    (6 : ℕ) ≠ 5 ∧
    ∃ s1, runRecords (start_new_log 5 0 initState) [(1, payloadX)] = .ok s1 ∧
      getFile (start_new_log 6 2 s1).files 5 =
        some (metadataJson 0 :: entriesFrom 0 [(1, payloadX)]) ∧
      getFile (start_new_log 6 2 s1).files 6 = some [metadataJson 2] ∧
      (start_new_log 6 2 s1).messageCount = 0 ∧
      (start_new_log 6 2 s1).handle = .openedFile 6 ∧
      (start_new_log 6 2 s1).startTime = some (2 : ℚ) :=
  ⟨by decide, C7_reset_amended 5 6 0 2 [(1, payloadX)] (by decide)⟩

end Claims

namespace Claims

open HandTrackingServer HandTrackingReplay

/-- C3: for any finite sequence of `record` calls in one session (payloads
truthy, as every body accepted by `POST /control` is), every call succeeds,
the resulting log file decodes to the metadata record followed by exactly the
n entry records; the replay filter keeps exactly those n records, their
`message_index` fields are exactly 0..n-1 in write order, their `data` fields
are the original payloads, and a replay pass over the file dispatches exactly
the original payloads in order. -/
theorem C3_record_replay_roundtrip (name : ℕ) (t0 : ℚ) (xs : List (ℚ × Json))
    (sink : ℕ → ℚ × Bool) (hp : ∀ p ∈ xs, Json.truthy p.2 = true) :
    ∃ s1, runRecords (start_new_log name t0 initState) xs = .ok s1 ∧
      getFile s1.files name = some (metadataJson t0 :: entriesFrom 0 xs) ∧
      dataEntries (metadataJson t0 :: entriesFrom 0 xs) = entriesFrom 0 xs ∧
      (entriesFrom 0 xs).map (fun e => e.get "message_index") =
        (List.range xs.length).map (fun i => some (Json.num (i : ℚ))) ∧
      (entriesFrom 0 xs).map (fun e => e.get "data") =
        xs.map (fun p => some p.2) ∧
      ∃ steps,
        replay_log ((metadataJson t0 :: entriesFrom 0 xs).map some) 1 sink 0 =
          .ok steps ∧
        steps.map (fun st => st.entry.get "data") = xs.map (fun p => some p.2) := by
  obtain ⟨s1, hrun, hhand, hcount, hstart, hfile, hothers⟩ :=
    runRecords_spec xs (start_new_log name t0 initState) name [metadataJson t0]
      rfl (by simp [start_new_log, getFile_setFile_self])
  have hcontent : getFile s1.files name =
      some (metadataJson t0 :: entriesFrom 0 xs) := by
    rw [hfile]
    rfl
  have hde := dataEntries_recorded t0 xs hp
  refine ⟨s1, hrun, hcontent, hde, ?_, entriesFrom_payloads xs 0, ?_⟩
  · rw [entriesFrom_indices xs 0, List.range_eq_range']
  · cases hxs : xs with
    | nil => exact ⟨[], replay_log_empty _ _ _ _ rfl, rfl⟩
    | cons p rest =>
        obtain ⟨t, d⟩ := p
        rw [hxs] at hde
        have hdes : dataEntries (load_log_file
            ((metadataJson t0 :: entriesFrom 0 ((t, d) :: rest)).map some)) =
            entryJson t 0 d :: entriesFrom 1 rest := by
          rw [load_log_file_map_some]
          simpa [entriesFrom] using hde
        obtain ⟨steps, hrunp, hmapp⟩ :=
          replayPass_ok 1 t sink (by norm_num)
            (entryJson t 0 d :: entriesFrom 1 rest) 0 0
            (by
              intro e he
              exact entriesFrom_ts_isSome ((t, d) :: rest) 0 e
                (by simpa [entriesFrom] using he))
        refine ⟨steps, ?_, ?_⟩
        · rw [replay_log_eq _ _ _ _ _ _ t hdes (getTs_entryJson t 0 d)]
          exact hrunp
        · have hcomp : steps.map (fun st => st.entry.get "data") =
              (steps.map ReplayStep.entry).map (fun e => e.get "data") := by
            rw [List.map_map]
            rfl
          rw [hcomp, hmapp]
          simpa [entriesFrom] using entriesFrom_payloads ((t, d) :: rest) 0

/-- C3 witness: two records, payloads `{"x": 1}` at t=1 and `{"x": 1}` at
t=3, in the session of second 5 started at t=0, with an instant sink. -/
theorem C3_record_replay_roundtrip_witness :
    (∀ p ∈ [((1 : ℚ), payloadX), ((3 : ℚ), payloadX)], Json.truthy p.2 = true) ∧
    ∃ s1, runRecords (start_new_log 5 0 initState)
        [((1 : ℚ), payloadX), ((3 : ℚ), payloadX)] = .ok s1 ∧
      getFile s1.files 5 = some (metadataJson 0 ::
        entriesFrom 0 [((1 : ℚ), payloadX), ((3 : ℚ), payloadX)]) ∧
      dataEntries (metadataJson 0 ::
          entriesFrom 0 [((1 : ℚ), payloadX), ((3 : ℚ), payloadX)]) =
        entriesFrom 0 [((1 : ℚ), payloadX), ((3 : ℚ), payloadX)] ∧
      (entriesFrom 0 [((1 : ℚ), payloadX), ((3 : ℚ), payloadX)]).map
          (fun e => e.get "message_index") =
        (List.range 2).map (fun i => some (Json.num (i : ℚ))) ∧
      (entriesFrom 0 [((1 : ℚ), payloadX), ((3 : ℚ), payloadX)]).map
          (fun e => e.get "data") =
        [((1 : ℚ), payloadX), ((3 : ℚ), payloadX)].map (fun p => some p.2) ∧
      ∃ steps,
        replay_log ((metadataJson 0 ::
            entriesFrom 0 [((1 : ℚ), payloadX), ((3 : ℚ), payloadX)]).map some)
            1 (fun _ => ((0 : ℚ), true)) 0 = .ok steps ∧
        steps.map (fun st => st.entry.get "data") =
          [((1 : ℚ), payloadX), ((3 : ℚ), payloadX)].map (fun p => some p.2) :=
  ⟨by decide,
   C3_record_replay_roundtrip 5 0 [((1 : ℚ), payloadX), ((3 : ℚ), payloadX)]
     (fun _ => ((0 : ℚ), true)) (by decide)⟩

end Claims

namespace Claims

open HandTrackingServer HandTrackingReplay

/-- A sink that answers instantly and successfully. -/
def demoSink : ℕ → ℚ × Bool := fun _ => ((0 : ℚ), true)

/-- A sink that answers instantly and fails every dispatch. -/
def demoSinkFail : ℕ → ℚ × Bool := fun _ => ((0 : ℚ), false)

/-- A data entry recorded at t = 0 with index 0. -/
def demoEntryA : Json := entryJson 0 0 payloadX

/-- A data entry recorded at t = 1 with index 1. -/
def demoEntryB : Json := entryJson 1 1 payloadX

/-- A two-entry log with no metadata records and no malformed lines. -/
def demoLines : List (Option Json) := [some demoEntryA, some demoEntryB]

/-- C4 counterexample: the code never validates the speed multiplier.  A
replay of a two-entry log at speed -1 is not rejected and does not dispatch
zero messages: it dispatches both entries. -/
theorem C4_negative_speed_dispatches :
    dispatchCount (replay_log demoLines (-1) demoSink 0) = 2 ∧
    dispatchCount (replay_log demoLines (-1) demoSink 0) ≠ 0 :=
  ⟨rfl, by decide⟩

/-- C4 amended: no configuration check exists.  With `speed = 0` the pass
aborts with `ZeroDivisionError` at the first entry's delay computation
(after loading, before any dispatch); with `speed < 0` every entry of a
forward-ordered log is dispatched and no sleep is ever performed. -/
theorem C4_speed_amended :
    (∀ (lines : List (Option Json)) (sink : ℕ → ℚ × Bool) (E : ℚ)
        (e0 : Json) (rest : List Json) (q : ℚ),
        dataEntries (load_log_file lines) = e0 :: rest → getTs e0 = some q →
        replay_log lines 0 sink E = .error .zeroDivision) ∧
    (∀ (speed firstTs : ℚ) (sink : ℕ → ℚ × Bool) (es : List Json) (i : ℕ)
        (E : ℚ), speed < 0 → 0 ≤ E → (∀ n, 0 ≤ (sink n).1) →
        (∀ e ∈ es, ∃ q, getTs e = some q ∧ firstTs ≤ q) →
        ∃ steps, replayPass speed firstTs sink es i E = .ok steps ∧
          steps.map ReplayStep.entry = es ∧
          ∀ st ∈ steps, st.sleepArg = none) := by
  constructor
  · intro lines sink E e0 rest q hdes hq
    rw [replay_log_eq lines 0 sink E e0 rest q hdes hq]
    rw [replayPass, hq]
    simp
  · intro speed firstTs sink es i E hneg hE hdur hts
    exact replayPass_negative_speed speed firstTs sink hneg hdur es i E hE hts

/-- C4 witness: both amended branches evaluated on the two-entry demo log:
speed 0 raises the division error before dispatching, speed -1 dispatches
both entries with no sleep. -/
theorem C4_speed_amended_witness :
    dataEntries (load_log_file demoLines) = [demoEntryA, demoEntryB] ∧
    getTs demoEntryA = some 0 ∧
    replay_log demoLines 0 demoSink 0 = .error .zeroDivision ∧
    (-1 : ℚ) < 0 ∧
    ∃ steps, replayPass (-1) 0 demoSink [demoEntryA, demoEntryB] 0 0 =
        .ok steps ∧
      steps.map ReplayStep.entry = [demoEntryA, demoEntryB] ∧
      ∀ st ∈ steps, st.sleepArg = none := by
  refine ⟨rfl, rfl, ?_, by norm_num, ?_⟩
  · exact C4_speed_amended.1 demoLines demoSink 0 demoEntryA [demoEntryB] 0
      rfl rfl
  · refine C4_speed_amended.2 (-1) 0 demoSink [demoEntryA, demoEntryB] 0 0
      (by norm_num) le_rfl (fun _ => le_rfl) ?_
    intro e he
    rcases List.mem_cons.mp he with h | h
    · subst h; exact ⟨0, rfl, le_refl 0⟩
    · rcases List.mem_cons.mp h with h2 | h2
      · subst h2; exact ⟨1, rfl, by norm_num⟩
      · simp at h2

/-- C5: a replay pass over any log whose data entries carry numeric
timestamps, and whose type-discriminated metadata records carry no truthy
`data` field (as every recorder-written record does), dispatches exactly the
records carrying a data payload, in log order, and never dispatches a
metadata record. -/
theorem C5_dispatch_exactly_data_entries (lines : List (Option Json))
    (speed : ℚ) (sink : ℕ → ℚ × Bool) (E : ℚ) (hs : ¬speed = 0)
    (hts : ∀ e ∈ dataEntries (load_log_file lines), (getTs e).isSome)
    (hmeta : ∀ e ∈ load_log_file lines, isMetaType e = true → hasData e = false) :
    ∃ steps, replay_log lines speed sink E = .ok steps ∧
      steps.map ReplayStep.entry = dataEntries (load_log_file lines) ∧
      ∀ st ∈ steps, isMetaType st.entry = false := by
  cases hdes : dataEntries (load_log_file lines) with
  | nil => exact ⟨[], replay_log_empty _ _ _ _ hdes, by simp [hdes], by simp⟩
  | cons e0 rest =>
      have he0 : (getTs e0).isSome := hts e0 (by rw [hdes]; simp)
      obtain ⟨q, hq⟩ := Option.isSome_iff_exists.mp he0
      obtain ⟨steps, hrunp, hmap⟩ := replayPass_ok speed q sink hs (e0 :: rest)
        0 E (by intro e he; exact hts e (by rw [hdes]; exact he))
      refine ⟨steps, ?_, hmap, ?_⟩
      · rw [replay_log_eq lines speed sink E e0 rest q hdes hq]
        exact hrunp
      · intro st hst
        have hmem : st.entry ∈ dataEntries (load_log_file lines) := by
          rw [hdes, ← hmap]
          exact List.mem_map_of_mem ReplayStep.entry hst
        obtain ⟨hin, hdata⟩ := List.mem_filter.mp hmem
        cases hb : isMetaType st.entry
        · rfl
        · rw [hmeta st.entry hin hb] at hdata
          cases hdata

/-- A five-record demo log: metadata, entry A, a malformed line, entry B,
session end. -/
def demoLog : List (Option Json) :=
  [some (metadataJson 0), some demoEntryA, none, some demoEntryB,
   some (sessionEndJson 9 2 9)]

/-- C5 witness: the demo log with its metadata bracketing records and one
malformed line, replayed at speed 1. -/
theorem C5_dispatch_exactly_data_entries_witness :
    ¬(1 : ℚ) = 0 ∧
    (∀ e ∈ dataEntries (load_log_file demoLog), (getTs e).isSome) ∧
    (∀ e ∈ load_log_file demoLog, isMetaType e = true → hasData e = false) ∧
    ∃ steps, replay_log demoLog 1 demoSink 0 = .ok steps ∧
      steps.map ReplayStep.entry = dataEntries (load_log_file demoLog) ∧
      ∀ st ∈ steps, isMetaType st.entry = false :=
  ⟨by norm_num, by decide, by decide,
   C5_dispatch_exactly_data_entries demoLog 1 demoSink 0 (by norm_num)
     (by decide) (by decide)⟩

end Claims

namespace Claims

open HandTrackingServer HandTrackingReplay

/-- C6: the wait before each dispatch is recomputed from the fixed
per-iteration anchor pair (`T0`, `first_ts`): it is exactly
`(e.server_timestamp - first_ts)/speed` minus the elapsed time since `T0`
when that is positive and nothing otherwise, and the whole timing of the pass
(entries, waits, dispatch times) is unchanged when dispatch outcomes change
while the dispatch durations stay the same — in particular a failed dispatch
does not move the scheduled time of the next message. -/
theorem C6_wait_from_fixed_anchor (speed firstTs : ℚ)
    (sink1 sink2 : ℕ → ℚ × Bool) (es : List Json) (i : ℕ) (E : ℚ)
    (hd : ∀ n, (sink1 n).1 = (sink2 n).1) :
    (replayPass speed firstTs sink1 es i E).map (List.map stepTiming) =
      (replayPass speed firstTs sink2 es i E).map (List.map stepTiming) ∧
    ∀ steps, replayPass speed firstTs sink1 es i E = .ok steps →
      ∀ st ∈ steps, ∃ q, getTs st.entry = some q ∧
        st.sleepArg = (if (q - firstTs) / speed > st.elapsedIn then
          some ((q - firstTs) / speed - st.elapsedIn) else none) ∧
        st.dispatchAt = max ((q - firstTs) / speed) st.elapsedIn :=
  ⟨replayPass_timing_indep speed firstTs sink1 sink2 hd es i E,
   fun steps hrun => replayPass_steps_spec speed firstTs sink1 es i E steps hrun⟩

/-- C6 witness: the two-entry demo log at speed 1 against the always-succeed
and always-fail instant sinks. -/
theorem C6_wait_from_fixed_anchor_witness :
    (∀ n, (demoSink n).1 = (demoSinkFail n).1) ∧
    ((replayPass 1 0 demoSink [demoEntryA, demoEntryB] 0 0).map
        (List.map stepTiming) =
      (replayPass 1 0 demoSinkFail [demoEntryA, demoEntryB] 0 0).map
        (List.map stepTiming) ∧
    ∀ steps, replayPass 1 0 demoSink [demoEntryA, demoEntryB] 0 0 =
        .ok steps →
      ∀ st ∈ steps, ∃ q, getTs st.entry = some q ∧
        st.sleepArg = (if (q - 0) / 1 > st.elapsedIn then
          some ((q - 0) / 1 - st.elapsedIn) else none) ∧
        st.dispatchAt = max ((q - 0) / 1) st.elapsedIn) :=
  ⟨fun _ => rfl,
   C6_wait_from_fixed_anchor 1 0 demoSink demoSinkFail
     [demoEntryA, demoEntryB] 0 0 (fun _ => rfl)⟩

/-- C8: replaying a log and replaying the same log with all malformed lines
deleted are literally the same computation: the loader of replay lines 28-43
skips each malformed line with a warning, so the loaded entries, the
dispatched sequence and every scheduled wait coincide. -/
theorem C8_malformed_lines_irrelevant (lines : List (Option Json))
    (speed : ℚ) (sink : ℕ → ℚ × Bool) (E : ℚ) :
    replay_log (lines.filter Option.isSome) speed sink E =
      replay_log lines speed sink E := by
  unfold HandTrackingReplay.replay_log
  rw [load_log_file_filter]

/-- C9: the replay loop only calls `time.sleep` when the scaled anchor delay
strictly exceeds the elapsed time, so every duration passed to the sleep is
strictly positive; and an entry whose timestamp precedes the first entry's
(negative original delay) never produces a sleep at all, because its scaled
delay is negative while the elapsed clock is nonnegative. -/
theorem C9_sleep_strictly_positive (speed firstTs : ℚ) (sink : ℕ → ℚ × Bool)
    (es : List Json) (i : ℕ) (E : ℚ) (hsp : 0 < speed) (hE : 0 ≤ E)
    (hdur : ∀ n, 0 ≤ (sink n).1) :
    ∀ steps, replayPass speed firstTs sink es i E = .ok steps →
      ∀ st ∈ steps,
        (∀ w, st.sleepArg = some w → 0 < w) ∧
        (∀ q, getTs st.entry = some q → q - firstTs < 0 →
          st.sleepArg = none) := by
  intro steps hrun st hst
  obtain ⟨q, hq, hsleep, hdat⟩ :=
    replayPass_steps_spec speed firstTs sink es i E steps hrun st hst
  have hEin : 0 ≤ st.elapsedIn :=
    replayPass_elapsed_nonneg speed firstTs sink hdur es i E steps hE hrun st hst
  constructor
  · intro w hw
    rw [hsleep] at hw
    by_cases hgt : (q - firstTs) / speed > st.elapsedIn
    · rw [if_pos hgt] at hw
      have hw2 : (q - firstTs) / speed - st.elapsedIn = w := Option.some.inj hw
      linarith
    · rw [if_neg hgt] at hw
      cases hw
  · intro q2 hq2 hlt
    have hqq : q = q2 := by
      rw [hq] at hq2
      exact Option.some.inj hq2
    subst hqq
    have hscaled : (q - firstTs) / speed < 0 := div_neg_of_neg_of_pos hlt hsp
    rw [hsleep]
    exact if_neg (by linarith)

/-- An out-of-order two-entry log: the second timestamp precedes the first,
giving a negative original delay. -/
def demoBackwards : List Json := [entryJson 5 0 payloadX, entryJson 3 1 payloadX]

/-- C9 witness: the out-of-order demo log at speed 1 with an instant sink:
every performed sleep is positive and the negative-delay entry sleeps not at
all. -/
theorem C9_sleep_strictly_positive_witness :
    (0 : ℚ) < 1 ∧ (0 : ℚ) ≤ 0 ∧ (∀ n, 0 ≤ (demoSink n).1) ∧
    ∀ steps, replayPass 1 5 demoSink demoBackwards 0 0 = .ok steps →
      ∀ st ∈ steps,
        (∀ w, st.sleepArg = some w → 0 < w) ∧
        (∀ q, getTs st.entry = some q → q - 5 < 0 → st.sleepArg = none) :=
  ⟨by norm_num, le_refl 0, fun _ => le_refl 0,
   C9_sleep_strictly_positive 1 5 demoSink demoBackwards 0 0 (by norm_num)
     (le_refl 0) (fun _ => le_refl 0)⟩

end Claims
